import Mathlib

/-!
Shallow embedding of src/advanced-vector/vector.h: the raw-storage owner
RawMemory<T> and the growable container Vector<T>, together with theorems
settling the frozen claims about them.

Modelling conventions:
* Machine sizes are Nat (size_t values stay far below 2^64 in every claim).
* RawMemory is modelled by its observable state: whether the buffer handle is
  non-null, and the capacity.
* Vector is modelled by the list of live constructed elements (slots [0, size))
  together with the capacity of the owned storage; size_ is the length of that
  list.  Slots [size, capacity) are uninitialized and carry no value.
* Operations whose C++ behaviour is undefined at some input (precondition
  violations, invalid iterator ranges) return none there.
* Element copy construction / copy assignment that may fail is modelled by a
  failure predicate on the element value; a successful copy yields an equal
  value.
-/

namespace AdvVec

/-- State of RawMemory<T>: buffer_ (modelled by whether it is non-null) and
capacity_. -/
structure RawMem where
  nonNull : Bool
  capacity : Nat
deriving DecidableEq, Repr

/-- RawMemory default constructor: buffer_ = nullptr, capacity_ = 0. -/
def RawMem.empty : RawMem := ⟨false, 0⟩

/-- RawMemory(size_t capacity): buffer_(Allocate(capacity)), capacity_(capacity);
Allocate returns n != 0 ? operator new(...) : nullptr. -/
def RawMem.alloc (n : Nat) : RawMem := ⟨n != 0, n⟩

/-- RawMemory::Swap: std::swap of buffer_ and capacity_ between two objects.
Returns the pair (this-after, other-after). -/
def RawMem.swap (a b : RawMem) : RawMem × RawMem := (b, a)

/-- RawMemory move constructor: the new object starts default-initialized
(nullptr, 0) and then Swap(other).  Returns (new object, other-after). -/
def RawMem.moveCtor (src : RawMem) : RawMem × RawMem := RawMem.swap RawMem.empty src

/-- RawMemory move assignment operator=(RawMemory&& rhs): Swap(rhs).
Returns (this-after, rhs-after). -/
def RawMem.moveAssign (dst src : RawMem) : RawMem × RawMem := RawMem.swap dst src

/-- RawMemory invariant: the handle is non-null iff capacity > 0. -/
def RawMem.Inv (m : RawMem) : Prop := m.nonNull = true ↔ 0 < m.capacity

instance (m : RawMem) : Decidable m.Inv := by unfold RawMem.Inv; infer_instance

/-- State of Vector<T>: elems is the list of live constructed elements in slots
[0, size_), cap is data_.Capacity(). size_ is elems.length. -/
structure Vec (α : Type) where
  elems : List α
  cap : Nat
deriving DecidableEq, Repr

/-- Vector::Size(): size_, the number of live elements. -/
def Vec.size (v : Vec α) : Nat := v.elems.length

/-- Vector invariant: 0 <= size <= capacity of the owned storage. -/
def Vec.Inv (v : Vec α) : Prop := v.size ≤ v.cap

instance (v : Vec Nat) : Decidable v.Inv := by unfold Vec.Inv; infer_instance

/-- Vector default constructor: data_ empty, size_ = 0. -/
def Vec.mkDefault (α : Type) : Vec α := ⟨[], 0⟩

/-- Vector(size_t size): data_(size), size_(size), then
std::uninitialized_value_construct_n fills slots [0, size) with
value-initialized elements (all equal to the element type's default value d). -/
def Vec.mkSized (d : α) (n : Nat) : Vec α := ⟨List.replicate n d, n⟩

/-- Vector copy constructor: data_(other.size_), size_(other.size_), then the
whole source sequence is relocated (by copy or by move per the static policy)
into the new storage.  Either way each new slot holds a value equal to the
source slot. -/
def Vec.copyCtor (src : Vec α) : Vec α := ⟨src.elems, src.size⟩

/-- Vector move constructor: data_(std::move(other.data_)) leaves other.data_
as (nullptr, 0); size_ takes other.size_ and then other.size_ = 0.
Returns (new object, other-after). -/
def Vec.moveCtor (src : Vec α) : Vec α × Vec α := (⟨src.elems, src.cap⟩, ⟨[], 0⟩)

/-- Vector::Swap: data_.Swap(other.data_) and std::swap(size_, other.size_).
Returns (this-after, other-after). -/
def Vec.swap (a b : Vec α) : Vec α × Vec α := (b, a)

/-- Vector move assignment operator=(Vector&& rhs): Swap(rhs).
Returns (this-after, rhs-after). -/
def Vec.moveAssign (dst src : Vec α) : Vec α × Vec α := Vec.swap dst src

/-- Capacity of the new storage allocated on a growth path:
size_ == 0 ? 1 : size_ * 2 (evaluated at the pre-growth size_, which equals
the pre-growth capacity because growth triggers exactly when they are equal). -/
def growCap (sz : Nat) : Nat := if sz = 0 then 1 else sz * 2

/-- Vector::PushBack (both overloads) and EmplaceBack, state part: if
size_ == Capacity(), allocate new storage of growCap size_, construct the new
element at slot size_, relocate the old elements into slots [0, size_),
destroy the old elements and adopt the new storage; otherwise construct the
new element in place at slot size_.  Either way ++size_. -/
def Vec.pushBack (v : Vec α) (x : α) : Vec α :=
  if v.size = v.cap then ⟨v.elems ++ [x], growCap v.size⟩
  else ⟨v.elems ++ [x], v.cap⟩

/-- Vector::PopBack: std::destroy_n(data_.GetAddress() + size_ - 1, 1) then
--size_.  Precondition (caller contract): size_ > 0. -/
def Vec.popBack (v : Vec α) : Vec α := ⟨v.elems.take (v.size - 1), v.cap⟩

/-- Vector::Reserve(new_capacity): return if new_capacity <= data_.Capacity();
otherwise allocate new storage of exactly new_capacity, relocate all size_
elements into it, destroy the old elements and swap the storages. -/
def Vec.reserve (v : Vec α) (n : Nat) : Vec α :=
  if n ≤ v.cap then v else ⟨v.elems, n⟩

/-- Vector::Resize(new_size): growth: Reserve(new_size) then value-construct
slots [size_, new_size) (all equal to the default value d); shrink: destroy
slots [new_size, size_); equal: no-op. -/
def Vec.resize (d : α) (v : Vec α) (n : Nat) : Vec α :=
  if v.size < n then
    ⟨(v.reserve n).elems ++ List.replicate (n - v.size) d, (v.reserve n).cap⟩
  else if n < v.size then ⟨v.elems.take n, v.cap⟩
  else v

/-- Vector::Emplace(pos, args) with i = std::distance(cbegin(), pos); Insert
delegates here.  Branches of the source:
* size_ == 0: EmplaceBack(args) and return end()-1 (index 0; the only valid
  pos is begin() = end(), so i = 0).
* size_ == Capacity(): allocate new storage of growCap size_, construct the
  new element at offset i, relocate prefix [0, i) and suffix [i, size_) around
  it, destroy old elements, adopt new storage, ++size_, return index i.
* otherwise (0 < size_ < capacity): construct a temporary from args,
  move-construct the last element into slot size_, std::move_backward the
  range [i, size_-1) one slot right, move-assign slot i from the temporary,
  ++size_, return index i.  This path requires i < size_: at i = size_ the
  call std::move_backward(data_+size_, data_+size_-1, data_+size_) receives a
  reversed, invalid range — undefined behaviour — so the model returns none.
A position with i > size_ is outside [begin, end] and is caller undefined
behaviour: none. -/
def Vec.emplace (v : Vec α) (i : Nat) (x : α) : Option (Vec α × Nat) :=
  if v.size < i then none
  else if v.size = 0 then some (v.pushBack x, (v.pushBack x).size - 1)
  else if v.size = v.cap then
    some (⟨v.elems.take i ++ x :: v.elems.drop i, growCap v.size⟩, i)
  else if i < v.size then
    some (⟨v.elems.take i ++ x :: v.elems.drop i, v.cap⟩, i)
  else none

/-- Vector::Insert(pos, value): Emplace(pos, value). -/
def Vec.insert (v : Vec α) (i : Nat) (x : α) : Option (Vec α × Nat) :=
  v.emplace i x

/-- Vector::Erase(pos) with i = std::distance(cbegin(), pos): std::move the
range [i+1, size_) one slot left, destroy the last slot, --size_, return pos
(index i).  Precondition (caller contract): i < size_. -/
def Vec.erase (v : Vec α) (i : Nat) : Vec α × Nat :=
  (⟨v.elems.take i ++ v.elems.drop (i + 1), v.cap⟩, i)

/-- Index of the first element of a list on which the failure predicate p
fires, if any.  Models the point at which a sequence of element copy
constructions / copy assignments throws. -/
def firstFail (p : α → Bool) : List α → Option Nat
  | [] => none
  | a :: l => if p a then some 0 else (firstFail p l).map (· + 1)

/-- Which constructor the Move-if-Noexcept branch selects: the source tests
std::is_nothrow_move_constructible_v<T> || !std::is_copy_constructible_v<T>
(with if constexpr) and relocates with std::uninitialized_move_n in the first
case and std::uninitialized_copy_n in the second. -/
inductive RelocKind where
  | moved
  | copied
deriving DecidableEq, Repr

/-- The constructor used to relocate one element, as a function of the two
static properties of T: ntm = is_nothrow_move_constructible_v<T>,
cc = is_copy_constructible_v<T>. -/
def relocKind (ntm cc : Bool) : RelocKind :=
  if ntm || !cc then RelocKind.moved else RelocKind.copied

/-- Per-element relocation trace of Vector::Reserve(n): empty when
n <= capacity (no-op), otherwise one event per relocated element (all size_
of them), each using the statically selected constructor. -/
def Vec.reserveRelocTrace (ntm cc : Bool) (v : Vec α) (n : Nat) : List RelocKind :=
  if n ≤ v.cap then [] else v.elems.map (fun _ => relocKind ntm cc)

/-- Per-element relocation trace of Vector::PushBack / EmplaceBack: empty on
the no-growth path, otherwise one event per relocated element. -/
def Vec.pushBackRelocTrace (ntm cc : Bool) (v : Vec α) : List RelocKind :=
  if v.size = v.cap then v.elems.map (fun _ => relocKind ntm cc) else []

/-- Per-element relocation trace of Vector::Emplace: relocation happens only
on the growth path (size_ != 0 and size_ == Capacity()); the prefix [0, i)
and the suffix [i, size_) are both relocated with the same statically
selected constructor, so the trace covers all size_ old elements. -/
def Vec.emplaceRelocTrace (ntm cc : Bool) (v : Vec α) : List RelocKind :=
  if v.size ≠ 0 ∧ v.size = v.cap then v.elems.map (fun _ => relocKind ntm cc) else []

/-- Per-element relocation trace of the Vector copy constructor.  Here the
source is read through a const reference: other.data_.GetAddress() resolves
to the const overload and yields const T*, so on the
uninitialized_move_n branch each element is constructed from
std::move(*first) of type const T&&, which cannot bind to T(T&&) and selects
T's copy constructor — and for a non-copy-constructible T that branch does
not compile at all (none).  Hence whenever the site is well-formed
(cc = true) every relocated element is copy-constructed, on either branch
of the static test. -/
def Vec.copyCtorRelocTrace (_ntm cc : Bool) (v : Vec α) : Option (List RelocKind) :=
  if cc then some (v.elems.map (fun _ => RelocKind.copied)) else none

/-- Storage / element-lifetime events performed by Vector::Reserve on a
growth path.  New refers to the freshly allocated storage, old to the
storage owned on entry. -/
inductive REv where
  | allocNew (n : Nat)
  | constructNew (i : Nat)
  | destroyNew (i : Nat)
  | freeNew
  | destroyOld (i : Nat)
  | freeOld
deriving DecidableEq, Repr

/-- Vector::Reserve(n) with failure-aware element copies (the relocation loop
is std::uninitialized_copy_n; p a = true means copy-constructing from the
value a throws).  Returns (state after the call, event trace, success flag).
Control flow of the source: no-op when n <= capacity; otherwise allocate new
storage of n, copy-construct the elements one by one into slots [0, size_) of
the new storage — on a throw at element k, std::uninitialized_copy_n destroys
the k already-constructed new elements and rethrows, and new_data's destructor
releases the new block, leaving *this untouched —; on full success destroy
the old elements, swap the storages and release the old block. -/
def Vec.reserveTr (p : α → Bool) (v : Vec α) (n : Nat) :
    Vec α × List REv × Bool :=
  if n ≤ v.cap then (v, [], true)
  else
    match firstFail p v.elems with
    | some k =>
        (v,
         REv.allocNew n :: ((List.range k).map REv.constructNew
           ++ ((List.range k).reverse.map REv.destroyNew) ++ [REv.freeNew]),
         false)
    | none =>
        (⟨v.elems, n⟩,
         REv.allocNew n :: ((List.range v.size).map REv.constructNew
           ++ (List.range v.size).map REv.destroyOld ++ [REv.freeOld]),
         true)

/-- Element-lifetime events performed by the Vector copy assignment operator:
assign i = copy assignment onto live slot i, construct i = copy construction
into raw slot i (of this, or of the temporary in the rebuild branch),
destroy i = destructor call on slot i. -/
inductive CEv where
  | assign (i : Nat)
  | construct (i : Nat)
  | destroy (i : Nat)
deriving DecidableEq, Repr

/-- Vector copy assignment operator=(const Vector& rhs), failure-aware
(p a = true means copying from the value a throws) and instrumented with
element-lifetime events.  same is the this != &rhs identity test: when the
two sides are the same object the body is skipped entirely.  Branches of the
source for distinct objects:
* rhs.size_ > capacity: build the full temporary Vector rhs_copy(rhs)
  (copy-constructing every rhs element; on a throw nothing of *this was
  touched), Swap(rhs_copy); rhs_copy's destructor destroys the old elements
  and releases the old block.
* rhs.size_ >= size_ (within capacity): std::copy rhs[0, size_) onto the live
  prefix, then copy-construct rhs[size_, rhs.size_) into the raw tail (on a
  throw there, std::uninitialized_copy_n destroys the new tail elements it
  had constructed).
* rhs.size_ < size_: std::copy rhs[0, rhs.size_) onto the live prefix, then
  destroy slots [rhs.size_, size_).
size_ = rhs.size_ is executed only after all potentially-failing steps, so on
any failure the size field still holds its old value. -/
def Vec.copyAssignFull (same : Bool) (p : α → Bool) (dst src : Vec α) :
    Vec α × List CEv × Bool :=
  if same then (dst, [], true)
  else if dst.cap < src.size then
    match firstFail p src.elems with
    | some k =>
        (dst,
         (List.range k).map CEv.construct ++ (List.range k).reverse.map CEv.destroy,
         false)
    | none =>
        (⟨src.elems, src.size⟩,
         (List.range src.size).map CEv.construct ++ (List.range dst.size).map CEv.destroy,
         true)
  else if dst.size ≤ src.size then
    match firstFail p (src.elems.take dst.size) with
    | some k =>
        (⟨src.elems.take k ++ dst.elems.drop k, dst.cap⟩,
         (List.range k).map CEv.assign, false)
    | none =>
        match firstFail p (src.elems.drop dst.size) with
        | some k =>
            (⟨src.elems.take dst.size ++ dst.elems.drop dst.size, dst.cap⟩,
             (List.range dst.size).map CEv.assign
               ++ (List.range k).map (fun j => CEv.construct (dst.size + j))
               ++ (List.range k).reverse.map (fun j => CEv.destroy (dst.size + j)),
             false)
        | none =>
            (⟨src.elems.take dst.size ++ src.elems.drop dst.size, dst.cap⟩,
             (List.range dst.size).map CEv.assign
               ++ (List.range (src.size - dst.size)).map (fun j => CEv.construct (dst.size + j)),
             true)
  else
    match firstFail p src.elems with
    | some k =>
        (⟨src.elems.take k ++ dst.elems.drop k, dst.cap⟩,
         (List.range k).map CEv.assign, false)
    | none =>
        (⟨(src.elems ++ dst.elems.drop src.size).take src.size, dst.cap⟩,
         (List.range src.size).map CEv.assign
           ++ (List.range (dst.size - src.size)).map (fun j => CEv.destroy (src.size + j)),
         true)

theorem firstFail_eq_none_iff (p : α → Bool) (l : List α) :
    firstFail p l = none ↔ ∀ a ∈ l, p a = false := by
  induction l with
  | nil => simp [firstFail]
  | cons a l ih =>
    by_cases h : p a = true
    · simp [firstFail, h]
    · simp only [Bool.not_eq_true] at h
      simp [firstFail, h, Option.map_eq_none', ih]

theorem firstFail_lt_length (p : α → Bool) (l : List α) (k : Nat)
    (h : firstFail p l = some k) : k < l.length := by
  induction l generalizing k with
  | nil => simp [firstFail] at h
  | cons a l ih =>
    by_cases ha : p a = true
    · simp [firstFail, ha] at h
      simp only [List.length_cons]
      omega
    · simp only [Bool.not_eq_true] at ha
      simp only [firstFail, ha, Bool.false_eq_true, if_false, Option.map_eq_some'] at h
      obtain ⟨m, hm, rfl⟩ := h
      have := ih m hm
      simp
      omega

/-- C4 (counterexample): RawMemory move assignment does not leave the source
empty: assigning a capacity-3 block onto a capacity-5 block leaves the source
holding the destination's former non-null, capacity-5 block. -/
theorem rawMemMoveAssignLeavesSourceNonEmpty :
    (RawMem.moveAssign (RawMem.alloc 5) (RawMem.alloc 3)).2 ≠ RawMem.empty ∧
    (RawMem.moveAssign (RawMem.alloc 5) (RawMem.alloc 3)).2.capacity = 5 ∧
    (RawMem.moveAssign (RawMem.alloc 5) (RawMem.alloc 3)).2.nonNull = true := by
  decide

/-- C4 (amended): RawMemory move assignment exchanges the internal handle and
capacity with the source with no element-level work; the source ends holding
the destination's former handle and capacity, hence it is empty exactly when
the destination was empty. -/
theorem rawMemMoveAssignExchanges (d s : RawMem) :
    RawMem.moveAssign d s = (s, d) ∧
    ((RawMem.moveAssign d s).2 = RawMem.empty ↔ d = RawMem.empty) :=
  ⟨rfl, Iff.rfl⟩

/-- C5: move-constructing a Vector transfers the source's elements, size and
capacity to the new object and leaves the source with size 0 and capacity 0. -/
theorem vecMoveCtorTransfersAndEmptiesSource (v : Vec α) :
    (Vec.moveCtor v).1.elems = v.elems ∧ (Vec.moveCtor v).1.size = v.size ∧
    (Vec.moveCtor v).1.cap = v.cap ∧
    (Vec.moveCtor v).2.size = 0 ∧ (Vec.moveCtor v).2.cap = 0 :=
  ⟨rfl, rfl, rfl, rfl, rfl⟩

/-- C10: self copy assignment (the this != &rhs test fails) is a complete
no-op: the state is unchanged and no element constructor, destructor or
assignment is invoked. -/
theorem vecSelfCopyAssignNoOp (p : α → Bool) (v : Vec α) :
    Vec.copyAssignFull true p v v = (v, [], true) := rfl

theorem pushBack_size (v : Vec α) (x : α) : (v.pushBack x).size = v.size + 1 := by
  unfold Vec.pushBack
  split <;> simp [Vec.size]

theorem pushBack_cap (v : Vec α) (x : α) :
    (v.pushBack x).cap = if v.size = v.cap then growCap v.size else v.cap := by
  unfold Vec.pushBack
  split <;> simp_all

theorem pushBack_inv (v : Vec α) (x : α) (h : v.Inv) : (v.pushBack x).Inv := by
  unfold Vec.pushBack
  unfold Vec.Inv Vec.size at *
  split
  · simp only [List.length_append, List.length_cons, List.length_nil]
    unfold growCap
    split <;> omega
  · simp only [List.length_append, List.length_cons, List.length_nil]
    omega

/-- Append x repeatedly, n times, to a default-constructed Vector. -/
def pushN (x : α) : Nat → Vec α
  | 0 => Vec.mkDefault α
  | n + 1 => (pushN x n).pushBack x

theorem pushN_size (x : α) (n : Nat) : (pushN x n).size = n := by
  induction n with
  | zero => rfl
  | succ n ih => rw [pushN, pushBack_size, ih]

theorem pushN_cap_pow (x : α) (n : Nat) (h : 1 ≤ n) :
    ∃ k, (pushN x n).cap = 2 ^ k ∧ n ≤ 2 ^ k ∧ 2 ^ k < 2 * n := by
  induction n with
  | zero => omega
  | succ n ih =>
    rcases Nat.eq_or_lt_of_le h with h1 | h1
    · refine ⟨0, ?_, by omega, by omega⟩
      have : n = 0 := by omega
      subst this
      rfl
    · have hn : 1 ≤ n := by omega
      obtain ⟨k, hcap, hle, hlt⟩ := ih hn
      rw [pushN, pushBack_cap, pushN_size, hcap]
      by_cases he : n = 2 ^ k
      · refine ⟨k + 1, ?_, by omega, by omega⟩
        rw [if_pos he, growCap, if_neg (by omega)]
        rw [pow_succ]
        omega
      · have hlt2 : n < 2 ^ k := by omega
        exact ⟨k, by rw [if_neg he], by omega, by omega⟩

/-- C9: the shrinking operations PopBack (precondition size > 0), Erase
(precondition: valid dereferenceable position i < size) and Resize(n) with
n <= size keep the capacity (no reallocation happens); the surviving elements
below the affected position are exactly the old ones, and Erase returns the
index of the element that followed the erased one. -/
theorem vecShrinkOpsKeepStorage (d : α) (v : Vec α) (i n : Nat) :
    (0 < v.size → v.popBack.cap = v.cap ∧ v.popBack.elems = v.elems.take (v.size - 1)) ∧
    (i < v.size → (v.erase i).1.cap = v.cap ∧
      (v.erase i).1.elems.take i = v.elems.take i ∧ (v.erase i).2 = i) ∧
    (n ≤ v.size → (v.resize d n).cap = v.cap ∧ (v.resize d n).elems = v.elems.take n) := by
  refine ⟨fun _ => ⟨rfl, rfl⟩, fun hi => ⟨rfl, ?_, rfl⟩, fun hn => ?_⟩
  · show (v.elems.take i ++ v.elems.drop (i + 1)).take i = v.elems.take i
    rw [List.take_append_of_le_length, List.take_take, Nat.min_self]
    rw [List.length_take]
    unfold Vec.size at hi
    omega
  · unfold Vec.resize
    rcases Nat.lt_or_ge n v.size with h | h
    · rw [if_neg (by omega), if_pos h]
      exact ⟨rfl, rfl⟩
    · have heq : n = v.size := by omega
      subst heq
      rw [if_neg (by omega), if_neg (by omega)]
      exact ⟨rfl, by rw [Vec.size, List.take_length]⟩

/-- C9 witness. -/
theorem vecShrinkOpsKeepStorageWitness :
    (0 < (⟨[3, 4, 5], 4⟩ : Vec Nat).size ∧ 1 < (⟨[3, 4, 5], 4⟩ : Vec Nat).size ∧
      2 ≤ (⟨[3, 4, 5], 4⟩ : Vec Nat).size) ∧
    (⟨[3, 4, 5], 4⟩ : Vec Nat).popBack.cap = 4 ∧
    ((⟨[3, 4, 5], 4⟩ : Vec Nat).erase 1).1.cap = 4 ∧
    ((⟨[3, 4, 5], 4⟩ : Vec Nat).resize 0 2).cap = 4 := by
  refine ⟨by decide, ?_, ?_, ?_⟩
  · exact ((vecShrinkOpsKeepStorage 0 (⟨[3, 4, 5], 4⟩ : Vec Nat) 1 2).1 (by decide)).1
  · exact ((vecShrinkOpsKeepStorage 0 (⟨[3, 4, 5], 4⟩ : Vec Nat) 1 2).2.1 (by decide)).1
  · exact ((vecShrinkOpsKeepStorage 0 (⟨[3, 4, 5], 4⟩ : Vec Nat) 1 2).2.2 (by decide)).1

/-- C6: n appends starting from a default-constructed Vector yield size n;
the capacity is 0 exactly until the first append; a growth happens exactly at
an append with size == capacity, the first one to capacity 1 and every later
one doubling — hence after n >= 1 appends the capacity is the least power of
two that is at least n. -/
theorem vecPushBackGrowthSequence (x : α) (n : Nat) :
    (pushN x n).size = n ∧
    ((pushN x n).cap = 0 ↔ n = 0) ∧
    ((pushN x (n + 1)).cap =
      if (pushN x n).size = (pushN x n).cap then growCap (pushN x n).size
      else (pushN x n).cap) ∧
    ((pushN x (n + 1)).cap ≠ (pushN x n).cap ↔ (pushN x n).size = (pushN x n).cap) ∧
    (1 ≤ n → ∃ k, (pushN x n).cap = 2 ^ k ∧ n ≤ 2 ^ k ∧ 2 ^ k < 2 * n) := by
  have hsz := pushN_size x n
  have hcap := pushBack_cap (pushN x n) x
  refine ⟨hsz, ?_, hcap, ?_, pushN_cap_pow x n⟩
  · constructor
    · intro h0
      by_contra hn
      obtain ⟨k, hk, _, _⟩ := pushN_cap_pow x n (by omega)
      have : 0 < 2 ^ k := Nat.pos_pow_of_pos k (by omega)
      omega
    · intro h
      subst h
      rfl
  · rw [show (pushN x (n + 1)) = (pushN x n).pushBack x from rfl, hcap]
    constructor
    · intro hne
      by_contra hides
      rw [if_neg hides] at hne
      exact hne rfl
    · intro hful
      rw [if_pos hful, growCap]
      rw [hsz] at hful ⊢
      split <;> omega

/-- C6 witness. -/
theorem vecPushBackGrowthSequenceWitness :
    1 ≤ 5 ∧ ∃ k, (pushN (7 : Nat) 5).cap = 2 ^ k ∧ 5 ≤ 2 ^ k ∧ 2 ^ k < 2 * 5 :=
  ⟨by decide, (vecPushBackGrowthSequence (7 : Nat) 5).2.2.2.2 (by decide)⟩

/-- C3 (counterexample): with a copy-constructible element type whose move
construction is statically guaranteed never to fail (ntm = true, cc = true),
the copy-construction relocation copy-constructs every relocated element —
its move branch reads the source through const T* and so invokes the copy
constructor — refuting the claim that move construction is used at every
listed relocation site for such types. -/
theorem vecCopyCtorRelocCopiesDespiteNoexceptMove :
    (⟨[1, 2], 2⟩ : Vec Nat).copyCtorRelocTrace true true
      = some [RelocKind.copied, RelocKind.copied] ∧
    RelocKind.copied ≠ RelocKind.moved := by decide

/-- C3 (amended): when the element type's move construction may fail
(ntm = false) and the type is copy-constructible (cc = true), every growth
relocation (Reserve, PushBack / EmplaceBack growth, Emplace growth,
copy-construction relocation) copy-constructs each relocated element; when
move construction never fails or the type is not copy-constructible, the
in-place growth relocations (Reserve, PushBack / EmplaceBack growth, Emplace
growth) move-construct each relocated element, but copy-construction
relocation reads its source through a const reference and therefore
copy-constructs every element whenever the element type is copy-constructible
(and is ill-formed for a non-copy-constructible type).  The trace lengths
show that every relocated element is covered. -/
theorem vecRelocationUsesPolicy (ntm cc : Bool) (v : Vec α) (n : Nat) :
    (ntm = false → cc = true →
      (∀ e ∈ v.reserveRelocTrace ntm cc n, e = RelocKind.copied) ∧
      (∀ e ∈ v.pushBackRelocTrace ntm cc, e = RelocKind.copied) ∧
      (∀ e ∈ v.emplaceRelocTrace ntm cc, e = RelocKind.copied) ∧
      (∀ l, v.copyCtorRelocTrace ntm cc = some l → ∀ e ∈ l, e = RelocKind.copied)) ∧
    (ntm = true ∨ cc = false →
      (∀ e ∈ v.reserveRelocTrace ntm cc n, e = RelocKind.moved) ∧
      (∀ e ∈ v.pushBackRelocTrace ntm cc, e = RelocKind.moved) ∧
      (∀ e ∈ v.emplaceRelocTrace ntm cc, e = RelocKind.moved)) ∧
    (cc = true → ∃ l, v.copyCtorRelocTrace ntm cc = some l ∧
      l.length = v.size ∧ ∀ e ∈ l, e = RelocKind.copied) ∧
    (cc = false → v.copyCtorRelocTrace ntm cc = none) ∧
    (v.cap < n → (v.reserveRelocTrace ntm cc v.cap).length = 0 ∧
      (v.reserveRelocTrace ntm cc n).length = v.size) ∧
    (v.size = v.cap → (v.pushBackRelocTrace ntm cc).length = v.size) := by
  have hk : ∀ (c : RelocKind) (l : List RelocKind), l = v.elems.map (fun _ => relocKind ntm cc) →
      relocKind ntm cc = c → ∀ e ∈ l, e = c := by
    intro c l hl hc e he
    subst hl
    simp only [List.mem_map] at he
    obtain ⟨a, _, rfl⟩ := he
    exact hc
  have hcopied : ∀ e ∈ v.elems.map (fun _ : α => RelocKind.copied), e = RelocKind.copied := by
    intro e he
    simp only [List.mem_map] at he
    obtain ⟨a, _, rfl⟩ := he
    rfl
  refine ⟨?_, ?_, ?_, ?_, ?_, ?_⟩
  · intro hntm hcc
    subst hntm; subst hcc
    have hcop : relocKind false true = RelocKind.copied := rfl
    refine ⟨?_, ?_, ?_, ?_⟩
    · unfold Vec.reserveRelocTrace
      split
      · simp
      · exact hk _ _ rfl hcop
    · unfold Vec.pushBackRelocTrace
      split
      · exact hk _ _ rfl hcop
      · simp
    · unfold Vec.emplaceRelocTrace
      split
      · exact hk _ _ rfl hcop
      · simp
    · intro l hl
      unfold Vec.copyCtorRelocTrace at hl
      rw [if_pos rfl] at hl
      simp only [Option.some.injEq] at hl
      subst hl
      exact hcopied
  · intro hmv
    have hmov : relocKind ntm cc = RelocKind.moved := by
      rcases hmv with h | h <;> subst h <;> unfold relocKind <;> simp
    refine ⟨?_, ?_, ?_⟩
    · unfold Vec.reserveRelocTrace
      split
      · simp
      · exact hk _ _ rfl hmov
    · unfold Vec.pushBackRelocTrace
      split
      · exact hk _ _ rfl hmov
      · simp
    · unfold Vec.emplaceRelocTrace
      split
      · exact hk _ _ rfl hmov
      · simp
  · intro hcc
    subst hcc
    refine ⟨v.elems.map (fun _ => RelocKind.copied), ?_, ?_, hcopied⟩
    · unfold Vec.copyCtorRelocTrace
      rw [if_pos rfl]
    · simp [Vec.size]
  · intro hcc
    subst hcc
    unfold Vec.copyCtorRelocTrace
    rw [if_neg (by simp)]
  · refine fun hn => ⟨?_, ?_⟩
    · unfold Vec.reserveRelocTrace
      rw [if_pos (Nat.le_refl _)]
      rfl
    · unfold Vec.reserveRelocTrace
      rw [if_neg (by omega)]
      simp [Vec.size]
  · intro hf
    unfold Vec.pushBackRelocTrace
    rw [if_pos hf]
    simp [Vec.size]

/-- C3 witness. -/
theorem vecRelocationUsesPolicyWitness :
    (false = false ∧ true = true ∧
      ∀ e ∈ (⟨[1, 2], 2⟩ : Vec Nat).reserveRelocTrace false true 4, e = RelocKind.copied) ∧
    (true = true ∨ false = false) ∧
    (∀ e ∈ (⟨[1, 2], 2⟩ : Vec Nat).pushBackRelocTrace true true, e = RelocKind.moved) ∧
    (∃ l, (⟨[1, 2], 2⟩ : Vec Nat).copyCtorRelocTrace true true = some l ∧
      l.length = (⟨[1, 2], 2⟩ : Vec Nat).size ∧ ∀ e ∈ l, e = RelocKind.copied) := by
  refine ⟨⟨rfl, rfl, ?_⟩, Or.inl rfl, ?_, ?_⟩
  · exact ((vecRelocationUsesPolicy false true (⟨[1, 2], 2⟩ : Vec Nat) 4).1 rfl rfl).1
  · exact ((vecRelocationUsesPolicy true true (⟨[1, 2], 2⟩ : Vec Nat) 4).2.1 (Or.inl rfl)).2.1
  · exact (vecRelocationUsesPolicy true true (⟨[1, 2], 2⟩ : Vec Nat) 4).2.2.1 rfl

theorem reserve_inv (v : Vec α) (n : Nat) (h : v.Inv) : (v.reserve n).Inv := by
  unfold Vec.reserve
  unfold Vec.Inv at *
  split
  · exact h
  · show v.size ≤ n
    omega

theorem resize_inv (d : α) (v : Vec α) (n : Nat) (h : v.Inv) : (v.resize d n).Inv := by
  unfold Vec.resize
  split
  · unfold Vec.Inv Vec.size Vec.reserve at *
    split <;> simp <;> omega
  · split
    · unfold Vec.Inv Vec.size at *
      simp only [List.length_take]
      omega
    · exact h

theorem emplace_inv (v : Vec α) (i : Nat) (x : α) (h : v.Inv) (u : Vec α) (j : Nat)
    (he : v.emplace i x = some (u, j)) : u.Inv := by
  unfold Vec.emplace at he
  by_cases h1 : v.size < i
  · rw [if_pos h1] at he
    exact Option.noConfusion he
  · rw [if_neg h1] at he
    by_cases h2 : v.size = 0
    · rw [if_pos h2] at he
      simp only [Option.some.injEq, Prod.mk.injEq] at he
      obtain ⟨hu, -⟩ := he
      subst hu
      exact pushBack_inv v x h
    · rw [if_neg h2] at he
      by_cases h3 : v.size = v.cap
      · rw [if_pos h3] at he
        simp only [Option.some.injEq, Prod.mk.injEq] at he
        obtain ⟨hu, -⟩ := he
        subst hu
        show (List.take i v.elems ++ x :: List.drop i v.elems).length ≤ growCap v.size
        unfold Vec.Inv at h
        unfold Vec.size at *
        unfold growCap
        simp only [List.length_append, List.length_take, List.length_cons,
          List.length_drop]
        split <;> omega
      · rw [if_neg h3] at he
        by_cases h4 : i < v.size
        · rw [if_pos h4] at he
          simp only [Option.some.injEq, Prod.mk.injEq] at he
          obtain ⟨hu, -⟩ := he
          subst hu
          show (List.take i v.elems ++ x :: List.drop i v.elems).length ≤ v.cap
          unfold Vec.Inv at h
          unfold Vec.size at *
          simp only [List.length_append, List.length_take, List.length_cons,
            List.length_drop]
          omega
        · rw [if_neg h4] at he
          exact Option.noConfusion he

theorem copyAssign_inv (sm : Bool) (p : α → Bool) (dst src : Vec α) (h : dst.Inv) :
    (Vec.copyAssignFull sm p dst src).1.Inv := by
  unfold Vec.copyAssignFull
  split
  · exact h
  · split
    · rename_i h1
      cases hf : firstFail p src.elems with
      | some k => exact h
      | none =>
        unfold Vec.Inv Vec.size
        exact Nat.le_refl _
    · rename_i h1
      split
      · rename_i h2
        cases hf : firstFail p (src.elems.take dst.size) with
        | some k =>
          have hk := firstFail_lt_length p _ k hf
          rw [List.length_take] at hk
          unfold Vec.Inv Vec.size at *
          simp only [List.length_append, List.length_take, List.length_drop]
          omega
        | none =>
          cases hg : firstFail p (src.elems.drop dst.size) with
          | some k =>
            unfold Vec.Inv Vec.size at *
            simp only [List.length_append, List.length_take, List.length_drop]
            omega
          | none =>
            unfold Vec.Inv Vec.size at *
            simp only [List.length_append, List.length_take, List.length_drop]
            omega
      · rename_i h2
        cases hf : firstFail p src.elems with
        | some k =>
          have hk := firstFail_lt_length p _ k hf
          unfold Vec.Inv Vec.size at *
          simp only [List.length_append, List.length_take, List.length_drop]
          omega
        | none =>
          unfold Vec.Inv Vec.size at *
          simp only [List.length_take, List.length_append, List.length_drop]
          omega

/-- C1: every Vector operation (construction in all four forms, copy and move
assignment, Reserve, Resize, PushBack / EmplaceBack, PopBack, Emplace /
Insert, Erase, Swap) preserves the invariant size <= capacity of the owned
storage (slots [0, size) hold the live elements by construction of the
model), and every RawMemory operation (default and allocating construction,
move construction, move assignment, Swap) preserves the invariant that the
buffer handle is non-null iff capacity > 0. -/
theorem allOperationsPreserveInvariants (d x : α) (n i : Nat) (p : α → Bool)
    (sm : Bool) (v w : Vec α) (r s : RawMem) :
    RawMem.Inv RawMem.empty ∧
    RawMem.Inv (RawMem.alloc n) ∧
    (r.Inv → (RawMem.moveCtor r).1.Inv ∧ (RawMem.moveCtor r).2.Inv) ∧
    (r.Inv → s.Inv → (RawMem.moveAssign r s).1.Inv ∧ (RawMem.moveAssign r s).2.Inv) ∧
    (r.Inv → s.Inv → (RawMem.swap r s).1.Inv ∧ (RawMem.swap r s).2.Inv) ∧
    (Vec.mkDefault α).Inv ∧
    (Vec.mkSized d n).Inv ∧
    (Vec.copyCtor v).Inv ∧
    (v.Inv → (Vec.moveCtor v).1.Inv ∧ (Vec.moveCtor v).2.Inv) ∧
    (v.Inv → (Vec.copyAssignFull sm p v w).1.Inv) ∧
    (v.Inv → w.Inv → (Vec.moveAssign v w).1.Inv ∧ (Vec.moveAssign v w).2.Inv) ∧
    (v.Inv → (v.reserve n).Inv) ∧
    (v.Inv → (v.resize d n).Inv) ∧
    (v.Inv → (v.pushBack x).Inv) ∧
    (v.Inv → 0 < v.size → v.popBack.Inv) ∧
    (v.Inv → ∀ u j, v.emplace i x = some (u, j) → u.Inv) ∧
    (v.Inv → i < v.size → (v.erase i).1.Inv) ∧
    (v.Inv → w.Inv → (Vec.swap v w).1.Inv ∧ (Vec.swap v w).2.Inv) := by
  have hemp : RawMem.Inv RawMem.empty := by decide
  refine ⟨hemp, ?_, fun hr => ⟨hr, hemp⟩, fun hr hs => ⟨hs, hr⟩,
    fun hr hs => ⟨hs, hr⟩, Nat.le_refl 0, ?_, Nat.le_refl _,
    fun hv => ⟨hv, Nat.le_refl 0⟩, fun hv => copyAssign_inv sm p v w hv,
    fun hv hw => ⟨hw, hv⟩, fun hv => reserve_inv v n hv,
    fun hv => resize_inv d v n hv, fun hv => pushBack_inv v x hv,
    fun hv _ => ?_, fun hv u j he => emplace_inv v i x hv u j he,
    fun hv hi => ?_, fun hv hw => ⟨hw, hv⟩⟩
  · unfold RawMem.Inv RawMem.alloc
    simp only [bne_iff_ne, ne_eq]
    omega
  · unfold Vec.Inv Vec.mkSized Vec.size
    simp
  · unfold Vec.Inv Vec.size Vec.popBack at *
    simp only [List.length_take]
    omega
  · unfold Vec.Inv Vec.size Vec.erase at *
    simp only [List.length_append, List.length_take, List.length_drop]
    omega

/-- C1 witness. -/
theorem allOperationsPreserveInvariantsWitness :
    (Vec.Inv (⟨[5], 1⟩ : Vec Nat) ∧ 0 < (⟨[5], 1⟩ : Vec Nat).size) ∧
    ((⟨[5], 1⟩ : Vec Nat).pushBack 6).Inv ∧ (⟨[5], 1⟩ : Vec Nat).popBack.Inv := by
  refine ⟨⟨by decide, by decide⟩, ?_, ?_⟩
  · exact (allOperationsPreserveInvariants 0 6 2 0 (fun _ => false) false
      (⟨[5], 1⟩ : Vec Nat) ⟨[], 0⟩ RawMem.empty
      RawMem.empty).2.2.2.2.2.2.2.2.2.2.2.2.2.1 (by decide)
  · exact (allOperationsPreserveInvariants 0 6 2 0 (fun _ => false) false
      (⟨[5], 1⟩ : Vec Nat) ⟨[], 0⟩ RawMem.empty
      RawMem.empty).2.2.2.2.2.2.2.2.2.2.2.2.2.2.1 (by decide) (by decide)

/-- C2: Reserve(n) with n <= capacity leaves the Vector completely unchanged
(and performs no storage or element work at all); with capacity < n and all
element relocations succeeding it ends with capacity exactly n and the same
element sequence; if relocating the k-th element fails, every element already
constructed in the new storage is destroyed, the new storage is released, no
old element is destroyed and the old storage is not released, the call
reports failure and the Vector is left untouched (strong guarantee). -/
theorem vecReserveStrongGuarantee (p : α → Bool) (v : Vec α) (n k : Nat) :
    (n ≤ v.cap → v.reserveTr p n = (v, [], true)) ∧
    (v.cap < n → firstFail p v.elems = none →
      (v.reserveTr p n).1.elems = v.elems ∧ (v.reserveTr p n).1.cap = n ∧
      (v.reserveTr p n).2.2 = true) ∧
    (v.cap < n → firstFail p v.elems = some k →
      (v.reserveTr p n).1 = v ∧ (v.reserveTr p n).2.2 = false ∧
      (∀ i, REv.constructNew i ∈ (v.reserveTr p n).2.1 →
        REv.destroyNew i ∈ (v.reserveTr p n).2.1) ∧
      REv.freeNew ∈ (v.reserveTr p n).2.1 ∧
      (∀ i, REv.destroyOld i ∉ (v.reserveTr p n).2.1) ∧
      REv.freeOld ∉ (v.reserveTr p n).2.1) := by
  refine ⟨fun hle => ?_, fun hlt hnone => ?_, fun hlt hsome => ?_⟩
  · unfold Vec.reserveTr
    rw [if_pos hle]
  · unfold Vec.reserveTr
    rw [if_neg (by omega), hnone]
    exact ⟨rfl, rfl, rfl⟩
  · unfold Vec.reserveTr
    rw [if_neg (by omega), hsome]
    refine ⟨rfl, rfl, ?_, ?_, ?_, ?_⟩
    · intro i hi
      simp only [List.mem_cons, List.mem_append, List.mem_map, List.mem_reverse,
        List.mem_range, List.mem_singleton, reduceCtorEq, REv.constructNew.injEq,
        REv.destroyNew.injEq, and_false, false_and, exists_false, false_or,
        or_false, exists_eq_right] at hi ⊢
      rcases hi with hik | hik
      · exact Or.inl hik
      · cases hik
    · simp
    · intro i
      simp
    · simp

/-- C2 witness. -/
theorem vecReserveStrongGuaranteeWitness :
    ((⟨[0, 1, 2], 3⟩ : Vec Nat).cap < 5 ∧
      firstFail (fun a => a == 1) [0, 1, 2] = some 1) ∧
    ((⟨[0, 1, 2], 3⟩ : Vec Nat).reserveTr (fun a => a == 1) 5).1 = ⟨[0, 1, 2], 3⟩ ∧
    ((⟨[0, 1, 2], 3⟩ : Vec Nat).reserveTr (fun a => a == 1) 5).2.2 = false ∧
    ((⟨[0, 1, 2], 3⟩ : Vec Nat).reserveTr (fun a => a == 1) 2).2.2 = true := by
  refine ⟨⟨by decide, by decide⟩, ?_, ?_, ?_⟩
  · exact ((vecReserveStrongGuarantee (fun a => a == 1) (⟨[0, 1, 2], 3⟩ : Vec Nat) 5 1).2.2
      (by decide) (by decide)).1
  · exact ((vecReserveStrongGuarantee (fun a => a == 1) (⟨[0, 1, 2], 3⟩ : Vec Nat) 5 1).2.2
      (by decide) (by decide)).2.1
  · rw [(vecReserveStrongGuarantee (fun a => a == 1) (⟨[0, 1, 2], 3⟩ : Vec Nat) 2 1).1
      (by decide)]

/-- C7: copy assignment between distinct Vectors leaves the destination
elementwise equal to the source with matching size, in all three branches
(rebuild-and-exchange when the source is larger than the capacity, assign
prefix plus construct tail when it fits and is at least as long, assign
prefix plus destroy excess when it is shorter): on success the elements are
exactly the source's, the size is the source's, and the capacity is the
source's size in the rebuild branch and unchanged otherwise; on any element
failure the size field still holds its old value. -/
theorem vecCopyAssignMatchesSource (p : α → Bool) (dst src : Vec α) :
    ((Vec.copyAssignFull false p dst src).2.2 = true →
      (Vec.copyAssignFull false p dst src).1.elems = src.elems ∧
      (Vec.copyAssignFull false p dst src).1.size = src.size ∧
      (Vec.copyAssignFull false p dst src).1.cap =
        (if dst.cap < src.size then src.size else dst.cap)) ∧
    ((Vec.copyAssignFull false p dst src).2.2 = false →
      (Vec.copyAssignFull false p dst src).1.size = dst.size) := by
  unfold Vec.copyAssignFull
  rw [if_neg (by simp)]
  by_cases h1 : dst.cap < src.size
  · rw [if_pos h1]
    cases hf : firstFail p src.elems with
    | some k =>
      refine ⟨fun hs => by simp at hs, fun _ => rfl⟩
    | none =>
      refine ⟨fun _ => ⟨rfl, rfl, ?_⟩, fun hs => by simp at hs⟩
      rw [if_pos h1]
  · rw [if_neg h1]
    by_cases h2 : dst.size ≤ src.size
    · rw [if_pos h2]
      cases hf : firstFail p (src.elems.take dst.size) with
      | some k =>
        refine ⟨fun hs => by simp at hs, fun _ => ?_⟩
        have hk := firstFail_lt_length p _ k hf
        rw [List.length_take] at hk
        unfold Vec.size at *
        simp only [List.length_append, List.length_take, List.length_drop]
        omega
      | none =>
        cases hg : firstFail p (src.elems.drop dst.size) with
        | some k =>
          refine ⟨fun hs => by simp at hs, fun _ => ?_⟩
          unfold Vec.size at *
          simp only [List.length_append, List.length_take, List.length_drop]
          omega
        | none =>
          refine ⟨fun _ => ⟨List.take_append_drop _ _, ?_, by rw [if_neg h1]⟩,
            fun hs => by simp at hs⟩
          unfold Vec.size at *
          simp only [List.length_append, List.length_take, List.length_drop]
          omega
    · rw [if_neg h2]
      cases hf : firstFail p src.elems with
      | some k =>
        refine ⟨fun hs => by simp at hs, fun _ => ?_⟩
        have hk := firstFail_lt_length p _ k hf
        unfold Vec.size at *
        simp only [List.length_append, List.length_take, List.length_drop]
        omega
      | none =>
        refine ⟨fun _ => ⟨?_, ?_, by rw [if_neg h1]⟩, fun hs => by simp at hs⟩
        · show (src.elems ++ dst.elems.drop src.size).take src.size = src.elems
          simp only [Vec.size]
          rw [List.take_append_of_le_length (Nat.le_refl _), List.take_length]
        · unfold Vec.size
          simp only [List.length_take, List.length_append, List.length_drop]
          omega

/-- C7 witness: a larger source over a smaller destination (construct-tail
branch) and a smaller source over a larger destination (destroy-excess
branch), both succeeding. -/
theorem vecCopyAssignMatchesSourceWitness :
    (Vec.copyAssignFull false (fun _ => false) (⟨[9], 3⟩ : Vec Nat) ⟨[1, 2], 4⟩).2.2 = true ∧
    (Vec.copyAssignFull false (fun _ => false) (⟨[9], 3⟩ : Vec Nat) ⟨[1, 2], 4⟩).1.elems
      = [1, 2] ∧
    (Vec.copyAssignFull false (fun _ => false) (⟨[7, 8, 9], 3⟩ : Vec Nat) ⟨[4], 1⟩).1.elems
      = [4] := by
  refine ⟨by decide, ?_, ?_⟩
  · exact ((vecCopyAssignMatchesSource (fun _ => false) (⟨[9], 3⟩ : Vec Nat) ⟨[1, 2], 4⟩).1
      (by decide)).1
  · exact ((vecCopyAssignMatchesSource (fun _ => false) (⟨[7, 8, 9], 3⟩ : Vec Nat) ⟨[4], 1⟩).1
      (by decide)).1

/-- C8 (code bug): Insert at position end() (index 2) into a vector of size 2
with spare capacity (capacity 4) is taken by the no-growth path, whose
std::move_backward receives the reversed range [data_+2, data_+1) — undefined
behaviour — although index 2 is a valid insertion position per the contract;
the model therefore has no defined result there. -/
theorem vecInsertAtEndUndefined :
    Vec.insert (⟨[0, 1], 4⟩ : Vec Nat) 2 5 = none ∧
    (⟨[0, 1], 4⟩ : Vec Nat).size = 2 ∧ (⟨[0, 1], 4⟩ : Vec Nat).cap = 4 := by
  decide

end AdvVec
